import Mathlib

/-!
Shallow embedding of the gocrunch/matrix library (files matf64.go, the
float32 twin, work_pool.go and errors.go) and proofs about the claims of
its specification.

Modelling conventions:

* A Go matrix struct (`Matf64` / `Matf32`) is the record `Mat` below:
  a row count `r`, a column count `c` and the flat backing slice `vals`.
  Go float64/float32 element values are modelled as exact rationals `ℚ`;
  every concrete scenario in the spec uses small integer-valued floats for
  which IEEE arithmetic is exact, so the rational model is faithful there.
* `printErr` prints a message and calls `os.Exit(1)`; a Go runtime
  index-out-of-range panic likewise aborts the process.  Both are modelled
  by the `Except Fatal` monad: each reported-error call site maps to the
  `Fatal` constructor matching the error taxonomy of the spec, and an
  unchecked out-of-bounds slice access maps to `Fatal.panicOOB`.
* In-place mutation of a receiver is modelled by returning the new value
  of the receiver.
* The `Matf64` and `Matf32` method bodies are textually identical up to
  the element type except where noted (`Matf32.Sub` and the constructor
  capacities); definitions in the `Matf64` namespace therefore embed both
  width variants unless a separate `Matf32` definition is given.
* The transpose scratch buffer from work_pool.go is filled at indices
  `0 .. r*c-1` and exactly `len(m.vals)` elements are copied back, so
  under the length invariant `len(vals) = r*c` the buffer contents after
  `T()` are exactly the transposed order; `T` is embedded with that
  resulting value directly and every theorem about it carries the length
  invariant `Mat.wf` as a hypothesis.
-/

/-- Error taxonomy of the library.  All constructors except `panicOOB`
correspond to a `printErr` call (report + `os.Exit(1)`); `panicOOB` is the
Go runtime's own index-out-of-range panic, which carries no library error
report. -/
inductive Fatal
  | colMismatch
  | rowMismatch
  | dimMismatch
  | shapeMismatch
  | indexOOB
  | axisErr
  | arityErr
  | wrongType
  | argCount
  | panicOOB
deriving DecidableEq

/-- The matrix record: `type Matf64 struct { r, c int; vals []float64 }`
(and its float32 twin).  Row/column counts are naturals (all constructors
produce non-negative counts); the backing slice is a list of exact
rationals. -/
structure Mat where
  r : Nat
  c : Nat
  vals : List ℚ
deriving DecidableEq

/-- The documented representation invariant: the backing slice has exactly
`rows*cols` elements. -/
abbrev Mat.wf (m : Mat) : Prop := m.vals.length = m.r * m.c

/-- Unchecked read `vals[i]` at a call site where the index is known to be
in bounds whenever the receiver satisfies `Mat.wf` (Go would panic
otherwise); theorems using it carry `Mat.wf`. -/
def gd (l : List ℚ) (i : Nat) : ℚ := l.getD i 0

/-- Left fold `sum += v` with a zero accumulator, the shape of every
accumulation loop in the library. -/
def sumList (l : List ℚ) : ℚ := l.foldl (fun a b => a + b) 0

/-- Row-major materialisation of a double loop
`for i < r { for j < c { out[i*c+j] = f i j } }`, the common shape of the
buffer-rebuilding loops (transpose scratch fill, Dot output, Concat /
AppendCol rebuild). -/
def mkVals (r c : Nat) (f : Nat → Nat → ℚ) : List ℚ :=
  (List.range r).flatMap fun i => (List.range c).map (f i)

namespace Matf64

/-- `Newf64(dims...)`: 0 args → empty matrix; 1 arg → square zero matrix;
2 args → rectangular zero matrix; otherwise an argument-count error.
(The extra slice capacity `2*len` is not part of the logical value.) -/
def Newf64 (dims : List Nat) : Except Fatal Mat :=
  match dims with
  | [] => .ok ⟨0, 0, []⟩
  | [x] => .ok ⟨x, x, List.replicate (x * x) 0⟩
  | [x, y] => .ok ⟨x, y, List.replicate (x * y) 0⟩
  | _ => .error .argCount

/-- `Eyef64(x)` / `Eyef32(x)`: starts from the `x`-by-`x` zero matrix of
`Newf64(x)` and runs `for i := 1; i < x; i++ { m.vals[i*i-1] = 1.0 }`.
Note the written offsets are `i*i-1`, exactly as in the source. -/
def Eyef64 (x : Nat) : Mat :=
  ⟨x, x, ((List.range x).drop 1).foldl (fun v i => v.set (i * i - 1) 1)
      (List.replicate (x * x) 0)⟩

/-- `Reshape(rows, cols)`: size product must be preserved, else a shape
error; on success only the metadata changes. -/
def Reshape (m : Mat) (rows cols : Nat) : Except Fatal Mat :=
  if rows * cols ≠ m.r * m.c then .error .shapeMismatch
  else .ok ⟨rows, cols, m.vals⟩

/-- `Equals(n)`: shape equality, then element-for-element comparison of
the first `r*c` buffer entries. -/
def Equals (m n : Mat) : Bool :=
  m.r == n.r && (m.c == n.c &&
    (List.range (m.r * m.c)).all fun i => gd m.vals i == gd n.vals i)

/-- `Copy()`: a fresh `Newf64(m.r, m.c)` zero buffer of length `r*c` with
`copy(n.vals, m.vals)` copying `min(r*c, len(m.vals))` elements into it. -/
def Copy (m : Mat) : Mat :=
  ⟨m.r, m.c, m.vals.take (m.r * m.c) ++
    List.replicate (m.r * m.c - min (m.r * m.c) m.vals.length) 0⟩

/-- `T()`: in place transpose.  Row/column vectors take the metadata-swap
fast path with the buffer untouched; otherwise a pool scratch buffer is
filled with the elements in transposed row-major order
(`scratch[idx] = vals[j*c+i]` for `i < c` then `j < r`) and copied back.
See the module comment for the scratch-pool modelling. -/
def T (m : Mat) : Mat :=
  ⟨m.c, m.r,
    if m.r = 1 ∨ m.c = 1 then m.vals
    else mkVals m.c m.r fun i j => gd m.vals (j * m.c + i)⟩

/-- `dotf64Helper(a, b)`: reslices `b` to `len(a)` then accumulates
`sum += a[i]*b[i]`. -/
def dotf64Helper (a b : List ℚ) : ℚ :=
  sumList (List.zipWith (fun x y => x * y) a (b.take a.length))

/-- Contiguous slice `l[s : s+n]` of a backing buffer, used by `Dot` for
the receiver rows and the transposed argument rows; in bounds at every
call site whenever the operands satisfy `Mat.wf`. -/
def sliceL (l : List ℚ) (s n : Nat) : List ℚ := (l.drop s).take n

/-- `Dot(n)`: inner-dimension check, output allocated as
`Newf64(m.r, n.c)`, then `n.T()`, a double loop filling
`o.vals[i*n.r+j] = dotf64Helper(m.vals[i*m.c:], n.vals[j*n.c:])` over the
transposed `n` (post-transpose `n.r = n.c_orig`, so every output entry is
written), and the deferred `n.T()` restoring the argument.  The returned
pair is (result, final state of the argument). -/
def Dot (m n : Mat) : Except Fatal (Mat × Mat) :=
  if m.c = n.r then
    let n1 := T n
    .ok (⟨m.r, n.c,
      mkVals m.r n1.r fun i j =>
        dotf64Helper (sliceL m.vals (i * m.c) m.c)
          (sliceL n1.vals (j * n1.c) n1.c)⟩, T n1)
  else .error .dimMismatch

/-- `Append(n)`: column-count check, then `m.vals = append(m.vals,
n.vals...)`.  Note, exactly as in the source, that the receiver's row
count is left untouched. -/
def Append (m n : Mat) : Except Fatal Mat :=
  if m.c = n.c then .ok ⟨m.r, m.c, m.vals ++ n.vals⟩
  else .error .colMismatch

/-- `AppendRow(v)`: arity check `len(v) == m.c`, buffer extended by the
row (the capacity branch only affects allocation, not the value), row
count incremented. -/
def AppendRow (m : Mat) (v : List ℚ) : Except Fatal Mat :=
  if m.c = v.length then .ok ⟨m.r + 1, m.c, m.vals ++ v⟩
  else .error .rowMismatch

/-- `AppendCol(v)`: arity check `len(v) == m.r`, then the row groups of
the receiver each get the extra element and the buffer is rebuilt
row-major with the new column count. -/
def AppendCol (m : Mat) (v : List ℚ) : Except Fatal Mat :=
  if m.r = v.length then
    .ok ⟨m.r, m.c + 1,
      mkVals m.r (m.c + 1) fun i j =>
        if j < m.c then gd m.vals (i * m.c + j) else gd v i⟩
  else .error .colMismatch

/-- `Concat(n)`: row-count check, then both operands are materialised into
row groups, each row of `n` is appended to the matching row of the
receiver, and the buffer is rebuilt row-major with the merged column
count. -/
def Concat (m n : Mat) : Except Fatal Mat :=
  if m.r = n.r then
    .ok ⟨m.r, m.c + n.c,
      mkVals m.r (m.c + n.c) fun i j =>
        if j < m.c then gd m.vals (i * m.c + j)
        else gd n.vals (i * n.c + (j - m.c))⟩
  else .error .rowMismatch

end Matf64

/-- C1: the spec claims `len(buffer) == rows*cols` holds after every
public operation.  `Append` falsifies it: appending the 2x2 all-3.0
matrix under the 1x2 all-2.0 matrix (the example from `Append`'s own doc
comment) extends the buffer to 6 elements but leaves the row count at 1,
so the invariant `len(vals) = r*c` fails on the result. -/
theorem append_violates_length_invariant :
    Matf64.Append ⟨1, 2, [2, 2]⟩ ⟨2, 2, [3, 3, 3, 3]⟩ =
      .ok ⟨1, 2, [2, 2, 3, 3, 3, 3]⟩ ∧
    ¬ Mat.wf ⟨1, 2, [2, 2, 3, 3, 3, 3]⟩ := by
  refine ⟨rfl, ?_⟩
  simp [Mat.wf]

/-- C2: the spec claims `m.Append(n)` yields `m.rows + n.rows` rows.  On
the concrete scenario from the spec (2x2 all-3.0 appended under 1x2
all-2.0) the code concatenates the buffers but leaves the receiver's row
count at 1 instead of 3, so the result is not the claimed 3x2 matrix. -/
theorem append_keeps_stale_row_count :
    Matf64.Append ⟨1, 2, [2, 2]⟩ ⟨2, 2, [3, 3, 3, 3]⟩ =
      .ok ⟨1, 2, [2, 2, 3, 3, 3, 3]⟩ ∧
    (1 : Nat) ≠ 1 + 2 := by
  exact ⟨rfl, by decide⟩

/-- C6: the spec claims `Eyef64`/`Eyef32` build the identity matrix and
that `m.Dot(I)` returns `m`.  The constructor writes 1.0 at offsets
`i*i-1` for `i` in `[1, x)`, not on the main diagonal: `Eyef64 2` is
`[[1,0],[0,0]]`, and `[[1,2],[3,4]].Dot(Eyef64 2)` is `[[1,0],[3,0]]`,
which does not equal the operand. -/
theorem eye_is_not_identity_for_dot :
    Matf64.Eyef64 2 = ⟨2, 2, [1, 0, 0, 0]⟩ ∧
    Matf64.Dot ⟨2, 2, [1, 2, 3, 4]⟩ (Matf64.Eyef64 2) =
      .ok (⟨2, 2, [1, 0, 3, 0]⟩, Matf64.Eyef64 2) ∧
    Matf64.Equals ⟨2, 2, [1, 0, 3, 0]⟩ ⟨2, 2, [1, 2, 3, 4]⟩ = false := by
  refine ⟨?_, ?_, ?_⟩
  · simp [Matf64.Eyef64, List.range_succ]
  · simp [Matf64.Dot, Matf64.T, Matf64.Eyef64, Matf64.dotf64Helper,
      Matf64.sliceL, mkVals, gd, sumList, List.range_succ]
  · simp [Matf64.Equals, gd, List.range_succ]

theorem sumList_aux (l : List ℚ) : ∀ z : ℚ, l.foldl (fun a b => a + b) z = z + sumList l := by
  induction l with
  | nil => intro z; simp [sumList]
  | cons x xs ih =>
    intro z
    simp only [List.foldl_cons, sumList]
    rw [ih (z + x), ih (0 + x)]
    ring

theorem sumList_cons (x : ℚ) (l : List ℚ) : sumList (x :: l) = x + sumList l := by
  have h := sumList_aux l (0 + x)
  simp only [sumList, List.foldl_cons] at h ⊢
  rw [h]
  ring

theorem mkVals_succ (r c : Nat) (f : Nat → Nat → ℚ) :
    mkVals (r + 1) c f = mkVals r c f ++ (List.range c).map (f r) := by
  unfold mkVals
  rw [List.range_succ, List.flatMap_append]
  simp

theorem mkVals_length (r c : Nat) (f : Nat → Nat → ℚ) : (mkVals r c f).length = r * c := by
  induction r with
  | zero => simp [mkVals]
  | succ k ih =>
    rw [mkVals_succ]
    simp [ih, Nat.succ_mul]

theorem mkVals_getElem? {c : Nat} (hc : 0 < c) (r : Nat) (f : Nat → Nat → ℚ) (n : Nat) :
    (mkVals r c f)[n]? = if n < r * c then some (f (n / c) (n % c)) else none := by
  induction r with
  | zero => simp [mkVals]
  | succ k ih =>
    rw [mkVals_succ, List.getElem?_append, mkVals_length]
    by_cases h1 : n < k * c
    · have h2 : n < (k + 1) * c := by
        calc n < k * c := h1
        _ ≤ (k + 1) * c := Nat.mul_le_mul_right c (Nat.le_succ k)
      rw [if_pos h1, ih, if_pos h1, if_pos h2]
    · rw [if_neg h1]
      by_cases h2 : n < (k + 1) * c
      · have hs : (k + 1) * c = k * c + c := by ring
        have ht : n - k * c < c := by omega
        rw [List.getElem?_map, List.getElem?_range ht, if_pos h2]
        simp only [Option.map_some']
        have hdiv : n / c = k := Nat.div_eq_of_lt_le (by omega) (by rw [Nat.succ_mul]; omega)
        have hmod : n % c = n - k * c := by
          have h3 := Nat.div_add_mod n c
          rw [hdiv] at h3
          have h4 := Nat.mul_comm c k
          omega
        rw [hdiv, hmod]
      · have hlen : ((List.range c).map (f k)).length ≤ n - k * c := by
          simp only [List.length_map, List.length_range]
          have hs : (k + 1) * c = k * c + c := by ring
          omega
        rw [List.getElem?_eq_none_iff.mpr hlen, if_neg h2]

theorem mkVals_gd {r c : Nat} (f : Nat → Nat → ℚ) {i j : Nat} (hi : i < r) (hj : j < c) :
    gd (mkVals r c f) (i * c + j) = f i j := by
  have hc : 0 < c := Nat.lt_of_le_of_lt (Nat.zero_le j) hj
  have hlt : i * c + j < r * c := by
    have h1 : i * c + j < (i + 1) * c := by
      rw [Nat.succ_mul]
      omega
    have h2 : (i + 1) * c ≤ r * c := Nat.mul_le_mul_right c hi
    omega
  unfold gd
  rw [List.getD_eq_getElem?_getD, mkVals_getElem? hc, if_pos hlt]
  have hdiv : (i * c + j) / c = i := by
    rw [Nat.mul_comm i c, Nat.mul_add_div hc, Nat.div_eq_of_lt hj, Nat.add_zero]
  have hmod : (i * c + j) % c = j := by
    rw [Nat.mul_comm i c, Nat.mul_add_mod, Nat.mod_eq_of_lt hj]
  rw [hdiv, hmod]
  rfl

theorem mkVals_congr {r c : Nat} {f g : Nat → Nat → ℚ}
    (h : ∀ i, i < r → ∀ j, j < c → f i j = g i j) : mkVals r c f = mkVals r c g := by
  induction r with
  | zero => rfl
  | succ k ih =>
    rw [mkVals_succ, mkVals_succ, ih fun i hi j hj => h i (Nat.lt_succ_of_lt hi) j hj]
    congr 1
    apply List.map_congr_left
    intro j hj
    exact h k (Nat.lt_succ_self k) j (List.mem_range.mp hj)

theorem mkVals_eq_self {r c : Nat} {l : List ℚ} (h : l.length = r * c) :
    mkVals r c (fun i j => gd l (i * c + j)) = l := by
  rcases Nat.eq_zero_or_pos c with hc | hc
  · have hlen : (mkVals r c fun i j => gd l (i * c + j)).length = 0 := by
      rw [mkVals_length, hc, Nat.mul_zero]
    have hl : l.length = 0 := by rw [h, hc, Nat.mul_zero]
    rw [List.eq_nil_of_length_eq_zero hlen, List.eq_nil_of_length_eq_zero hl]
  · apply List.ext_getElem?
    intro n
    rw [mkVals_getElem? hc]
    by_cases hn : n < r * c
    · rw [if_pos hn]
      have hmodc : n / c * c + n % c = n := by
        have := Nat.div_add_mod n c
        have := Nat.mul_comm (n / c) c
        omega
      rw [hmodc]
      have hnl : n < l.length := by omega
      rw [List.getElem?_eq_getElem hnl]
      unfold gd
      rw [List.getD_eq_getElem?_getD, List.getElem?_eq_getElem hnl]
      rfl
    · rw [if_neg hn]
      symm
      exact List.getElem?_eq_none_iff.mpr (by omega)

theorem T_gd (m : Mat) {i j : Nat} (hi : i < m.c) (hj : j < m.r) :
    gd (Matf64.T m).vals (i * m.r + j) = gd m.vals (j * m.c + i) := by
  obtain ⟨r, c, vals⟩ := m
  simp only at hi hj
  unfold Matf64.T
  by_cases h : r = 1 ∨ c = 1
  · simp only [if_pos h]
    rcases h with h1 | h1
    · have hj0 : j = 0 := by omega
      subst hj0
      subst h1
      norm_num
    · have hi0 : i = 0 := by omega
      subst hi0
      subst h1
      norm_num
  · simp only [if_neg h]
    exact mkVals_gd _ hi hj

theorem T_T (m : Mat) (hm : m.wf) : Matf64.T (Matf64.T m) = m := by
  obtain ⟨r, c, vals⟩ := m
  have hm' : vals.length = r * c := hm
  unfold Matf64.T
  by_cases h : r = 1 ∨ c = 1
  · have h' : c = 1 ∨ r = 1 := h.symm
    simp [if_pos h, if_pos h']
  · have h' : ¬ (c = 1 ∨ r = 1) := fun hx => h hx.symm
    simp only [if_neg h, if_neg h']
    congr 1
    rw [mkVals_congr (g := fun i j => gd vals (i * c + j))
      fun i hi j hj => mkVals_gd _ hj hi]
    exact mkVals_eq_self hm'

theorem Copy_eq (m : Mat) (hm : m.wf) : Matf64.Copy m = m := by
  obtain ⟨r, c, vals⟩ := m
  have hm' : vals.length = r * c := hm
  unfold Matf64.Copy
  simp [← hm', List.take_length]

theorem Equals_self (m : Mat) : Matf64.Equals m m = true := by
  unfold Matf64.Equals
  simp

/-- C7: double transpose is the identity: for every matrix satisfying the
length invariant, `m.T().T()` Equals a copy of the pre-call value of `m`
(row/column vectors included via the metadata-swap fast path). -/
theorem double_transpose_identity (m : Mat) (hm : m.wf) :
    Matf64.Equals (Matf64.T (Matf64.T m)) (Matf64.Copy m) = true := by
  rw [T_T m hm, Copy_eq m hm]
  exact Equals_self m

theorem double_transpose_identity_witness :
    Matf64.Equals (Matf64.T (Matf64.T ⟨2, 3, [1, 2, 3, 4, 5, 6]⟩))
      (Matf64.Copy ⟨2, 3, [1, 2, 3, 4, 5, 6]⟩) = true :=
  double_transpose_identity ⟨2, 3, [1, 2, 3, 4, 5, 6]⟩ (by decide)

theorem gd_cons_zero (x : ℚ) (l : List ℚ) : gd (x :: l) 0 = x := rfl

theorem gd_cons_succ (x : ℚ) (l : List ℚ) (k : Nat) : gd (x :: l) (k + 1) = gd l k := rfl

theorem sliceL_length {l : List ℚ} {s n : Nat} (h : s + n ≤ l.length) :
    (Matf64.sliceL l s n).length = n := by
  unfold Matf64.sliceL
  rw [List.length_take, List.length_drop]
  omega

theorem sliceL_gd {l : List ℚ} {s n k : Nat} (hk : k < n) :
    gd (Matf64.sliceL l s n) k = gd l (s + k) := by
  unfold Matf64.sliceL gd
  rw [List.getD_eq_getElem?_getD, List.getD_eq_getElem?_getD,
    List.getElem?_take_of_lt hk, List.getElem?_drop]

theorem sumList_zipWith_mul (a : List ℚ) : ∀ b : List ℚ, a.length = b.length →
    sumList (List.zipWith (fun x y => x * y) a b) =
      ∑ k ∈ Finset.range a.length, gd a k * gd b k := by
  induction a with
  | nil => intro b h; simp [sumList]
  | cons x xs ih =>
    intro b h
    cases b with
    | nil => simp at h
    | cons y ys =>
      simp only [List.zipWith_cons_cons, List.length_cons]
      rw [sumList_cons, ih ys (by simpa using h), Finset.sum_range_succ']
      simp only [gd_cons_succ, gd_cons_zero]
      ring

theorem dotf64Helper_eq (a b : List ℚ) (h : b.length = a.length) :
    Matf64.dotf64Helper a b = ∑ k ∈ Finset.range a.length, gd a k * gd b k := by
  have hb : b.take a.length = b := by
    rw [← h]
    exact List.take_length b
  unfold Matf64.dotf64Helper
  rw [hb]
  exact sumList_zipWith_mul a b h.symm

theorem T_length (m : Mat) (hm : m.wf) : (Matf64.T m).vals.length = m.c * m.r := by
  obtain ⟨r, c, vals⟩ := m
  have hm' : vals.length = r * c := hm
  unfold Matf64.T
  by_cases h : r = 1 ∨ c = 1
  · simp only [if_pos h]
    simp [hm', Nat.mul_comm]
  · simp only [if_neg h]
    simp [mkVals_length]

/-- C3: `Dot` implements matrix multiplication: for well-formed operands
with matching inner dimensions it returns a fresh `m.r x n.c` matrix whose
(i,j) entry is the sum over k of `m(i,k)*n(k,j)`; mismatched inner
dimensions report a dimension error; and the two concrete scenarios of
the spec (3x1 of 2.0 against 1x3 of 3.0 and the reverse) produce the 3x3
all-6.0 matrix and the 1x1 matrix holding 18.0. -/
theorem dot_computes_matrix_product (m n : Mat) (hm : m.wf) (hn : n.wf) :
    (∀ _h : m.c = n.r,
      ∃ o narg, Matf64.Dot m n = .ok (o, narg) ∧ o.r = m.r ∧ o.c = n.c ∧ o.wf ∧
        ∀ i, i < m.r → ∀ j, j < n.c →
          gd o.vals (i * n.c + j) =
            ∑ k ∈ Finset.range m.c, gd m.vals (i * m.c + k) * gd n.vals (k * n.c + j)) ∧
    (m.c ≠ n.r → Matf64.Dot m n = .error .dimMismatch) ∧
    Matf64.Dot ⟨3, 1, [2, 2, 2]⟩ ⟨1, 3, [3, 3, 3]⟩ =
      .ok (⟨3, 3, [6, 6, 6, 6, 6, 6, 6, 6, 6]⟩, ⟨1, 3, [3, 3, 3]⟩) ∧
    Matf64.Dot ⟨1, 3, [3, 3, 3]⟩ ⟨3, 1, [2, 2, 2]⟩ =
      .ok (⟨1, 1, [18]⟩, ⟨3, 1, [2, 2, 2]⟩) := by
  refine ⟨?_, ?_, ?_, ?_⟩
  · intro h
    have hdot : Matf64.Dot m n = .ok (⟨m.r, n.c, mkVals m.r n.c fun i j =>
        Matf64.dotf64Helper (Matf64.sliceL m.vals (i * m.c) m.c)
          (Matf64.sliceL (Matf64.T n).vals (j * n.r) n.r)⟩, Matf64.T (Matf64.T n)) := by
      unfold Matf64.Dot
      rw [if_pos h]
      rfl
    refine ⟨_, _, hdot, rfl, rfl, ?_, ?_⟩
    · show (mkVals m.r n.c _).length = m.r * n.c
      exact mkVals_length _ _ _
    · intro i hi j hj
      have hA : (Matf64.sliceL m.vals (i * m.c) m.c).length = m.c := by
        apply sliceL_length
        rw [hm]
        have h2 : (i + 1) * m.c = i * m.c + m.c := by ring
        have h3 : (i + 1) * m.c ≤ m.r * m.c := Nat.mul_le_mul_right _ hi
        omega
      have hB : (Matf64.sliceL (Matf64.T n).vals (j * n.r) n.r).length = n.r := by
        apply sliceL_length
        rw [T_length n hn]
        have h2 : (j + 1) * n.r = j * n.r + n.r := by ring
        have h3 : (j + 1) * n.r ≤ n.c * n.r := Nat.mul_le_mul_right _ hj
        omega
      have hBA : (Matf64.sliceL (Matf64.T n).vals (j * n.r) n.r).length =
          (Matf64.sliceL m.vals (i * m.c) m.c).length := by
        rw [hA, hB, h]
      show gd (mkVals m.r n.c _) (i * n.c + j) = _
      rw [mkVals_gd _ hi hj, dotf64Helper_eq _ _ hBA, hA]
      apply Finset.sum_congr rfl
      intro k hk
      have hkc : k < m.c := Finset.mem_range.mp hk
      have hkr : k < n.r := h ▸ hkc
      rw [sliceL_gd hkc, sliceL_gd hkr, T_gd n hj hkr]
  · intro hne
    unfold Matf64.Dot
    rw [if_neg hne]
  · simp [Matf64.Dot, Matf64.T, Matf64.dotf64Helper, Matf64.sliceL,
      mkVals, gd, sumList, List.range_succ]
    norm_num
  · simp [Matf64.Dot, Matf64.T, Matf64.dotf64Helper, Matf64.sliceL,
      mkVals, gd, sumList, List.range_succ]
    norm_num

theorem dot_computes_matrix_product_witness :
    ∃ o narg, Matf64.Dot ⟨3, 1, [2, 2, 2]⟩ ⟨1, 3, [3, 3, 3]⟩ = .ok (o, narg) ∧
      o.r = 3 ∧ o.c = 3 ∧ o.wf ∧
      ∀ i, i < 3 → ∀ j, j < 3 →
        gd o.vals (i * 3 + j) =
          ∑ k ∈ Finset.range 1, gd [2, 2, 2] (i * 1 + k) * gd [3, 3, 3] (k * 3 + j) :=
  (dot_computes_matrix_product ⟨3, 1, [2, 2, 2]⟩ ⟨1, 3, [3, 3, 3]⟩
    (by decide) (by decide)).1 rfl

/-- C4: `Dot` restores its argument: for a well-formed argument `n` with
matching inner dimension, the state of `n` after `m.Dot(n)` returns
(the transpose-back of the transient transpose) Equals a copy of `n`
taken before the call. -/
theorem dot_leaves_argument_unchanged (m n : Mat) (hn : n.wf) (h : m.c = n.r) :
    ∃ o narg, Matf64.Dot m n = .ok (o, narg) ∧
      Matf64.Equals narg (Matf64.Copy n) = true := by
  have hdot : Matf64.Dot m n = .ok (⟨m.r, n.c, mkVals m.r n.c fun i j =>
      Matf64.dotf64Helper (Matf64.sliceL m.vals (i * m.c) m.c)
        (Matf64.sliceL (Matf64.T n).vals (j * n.r) n.r)⟩, Matf64.T (Matf64.T n)) := by
    unfold Matf64.Dot
    rw [if_pos h]
    rfl
  refine ⟨_, _, hdot, ?_⟩
  rw [T_T n hn, Copy_eq n hn]
  exact Equals_self n

theorem dot_leaves_argument_unchanged_witness :
    ∃ o narg, Matf64.Dot ⟨2, 2, [1, 2, 3, 4]⟩ ⟨2, 2, [5, 6, 7, 8]⟩ = .ok (o, narg) ∧
      Matf64.Equals narg (Matf64.Copy ⟨2, 2, [5, 6, 7, 8]⟩) = true :=
  dot_leaves_argument_unchanged ⟨2, 2, [1, 2, 3, 4]⟩ ⟨2, 2, [5, 6, 7, 8]⟩
    (by decide) rfl

/-- Dynamic `float64 or []float64` argument of `SetRow`/`SetCol` (the
`floatOrSlice interface.` parameter). -/
inductive ValArg
  | scalar (v : ℚ)
  | slice (v : List ℚ)

/-- Sequential unchecked reads `vals[idx]` of a copying loop; the first
out-of-range index aborts with the Go runtime panic. -/
def readSeq (vals : List ℚ) : List Int → Except Fatal (List ℚ)
  | [] => .ok []
  | i :: rest =>
    if 0 ≤ i ∧ i.toNat < vals.length then
      match readSeq vals rest with
      | .ok l => .ok (vals.getD i.toNat 0 :: l)
      | .error e => .error e
    else .error .panicOOB

/-- Sequential unchecked writes `vals[idx] = v` of an assignment loop;
the first out-of-range index aborts with the Go runtime panic. -/
def writeSeq (vals : List ℚ) : List (Int × ℚ) → Except Fatal (List ℚ)
  | [] => .ok vals
  | p :: rest =>
    if 0 ≤ p.1 ∧ p.1.toNat < vals.length then writeSeq (vals.set p.1.toNat p.2) rest
    else .error .panicOOB

namespace Matf64

/-- `Row(x)`: bounds check `x >= m.r || x < -m.r` reporting an index
error, then a fresh 1 x m.c matrix copying `vals[x*m.c+r]`
(`vals[(m.r+x)*m.c+r]` for negative `x`). -/
def Row (m : Mat) (x : Int) : Except Fatal Mat :=
  if (m.r : Int) ≤ x ∨ x < -(m.r : Int) then .error .indexOOB
  else if 0 ≤ x then
    (readSeq m.vals ((List.range m.c).map fun (r : Nat) => x * (m.c : Int) + r)).map
      fun v => ⟨1, m.c, v⟩
  else
    (readSeq m.vals ((List.range m.c).map fun (r : Nat) =>
      ((m.r : Int) + x) * (m.c : Int) + r)).map fun v => ⟨1, m.c, v⟩

/-- `Col(x)`: bounds check `x >= m.c || x < -m.c` reporting an index
error, then a fresh m.r x 1 matrix copying `vals[r*m.c+x]`
(`vals[r*m.c+(m.c+x)]` for negative `x`). -/
def Col (m : Mat) (x : Int) : Except Fatal Mat :=
  if (m.c : Int) ≤ x ∨ x < -(m.c : Int) then .error .indexOOB
  else if 0 ≤ x then
    (readSeq m.vals ((List.range m.r).map fun (r : Nat) => (r * m.c : Int) + x)).map
      fun v => ⟨m.r, 1, v⟩
  else
    (readSeq m.vals ((List.range m.r).map fun (r : Nat) =>
      (r * m.c : Int) + ((m.c : Int) + x))).map fun v => ⟨m.r, 1, v⟩

/-- `SetRow(row, floatOrSlice)`: the scalar case bounds-checks the row
index (index error) and broadcasts the value; the slice case checks only
the slice length against `m.c` (arity error) and performs the writes with
no index bounds check, exactly as in the source. -/
def SetRow (m : Mat) (row : Int) (v : ValArg) : Except Fatal Mat :=
  match v with
  | .scalar val =>
    if (m.r : Int) ≤ row ∨ row < -(m.r : Int) then .error .indexOOB
    else if 0 ≤ row then
      (writeSeq m.vals ((List.range m.c).map fun (r : Nat) =>
        (row * (m.c : Int) + r, val))).map fun w => ⟨m.r, m.c, w⟩
    else
      (writeSeq m.vals ((List.range m.c).map fun (r : Nat) =>
        (((m.r : Int) + row) * (m.c : Int) + r, val))).map fun w => ⟨m.r, m.c, w⟩
  | .slice vs =>
    if vs.length ≠ m.c then .error .arityErr
    else if 0 ≤ row then
      (writeSeq m.vals ((List.range m.c).map fun (r : Nat) =>
        (row * (m.c : Int) + r, gd vs r))).map fun w => ⟨m.r, m.c, w⟩
    else
      (writeSeq m.vals ((List.range m.c).map fun (r : Nat) =>
        (((m.r : Int) + row) * (m.c : Int) + r, gd vs r))).map fun w => ⟨m.r, m.c, w⟩

/-- `SetCol(col, floatOrSlice)`: the scalar case bounds-checks the column
index (index error) and broadcasts the value; the slice case checks only
the slice length against `m.r` (arity error) and performs the writes with
no index bounds check, exactly as in the source. -/
def SetCol (m : Mat) (col : Int) (v : ValArg) : Except Fatal Mat :=
  match v with
  | .scalar val =>
    if (m.c : Int) ≤ col ∨ col < -(m.c : Int) then .error .indexOOB
    else if 0 ≤ col then
      (writeSeq m.vals ((List.range m.r).map fun (r : Nat) =>
        ((r * m.c : Int) + col, val))).map fun w => ⟨m.r, m.c, w⟩
    else
      (writeSeq m.vals ((List.range m.r).map fun (r : Nat) =>
        ((r * m.c : Int) + ((m.c : Int) + col), val))).map fun w => ⟨m.r, m.c, w⟩
  | .slice vs =>
    if vs.length ≠ m.r then .error .arityErr
    else if 0 ≤ col then
      (writeSeq m.vals ((List.range m.r).map fun (r : Nat) =>
        ((r * m.c : Int) + col, gd vs r))).map fun w => ⟨m.r, m.c, w⟩
    else
      (writeSeq m.vals ((List.range m.r).map fun (r : Nat) =>
        ((r * m.c : Int) + ((m.c : Int) + col), gd vs r))).map fun w => ⟨m.r, m.c, w⟩

/-- `Min(args...)`: the no-argument form reads `vals[0]` unconditionally
and then scans indices `1 .. len(vals)-1`; the axis forms bounds-check the
selected row/column (index error), read the first element of the
selection unconditionally, and scan the rest.  Loop reads are within
`len(vals)` whenever the receiver satisfies `Mat.wf`, so only the initial
unconditional reads are modelled as checked (`panicOOB`). -/
def Min (m : Mat) (args : List Int) : Except Fatal (Nat × ℚ) :=
  match args with
  | [] =>
    match m.vals[0]? with
    | none => .error .panicOOB
    | some v0 =>
      .ok (((List.range m.vals.length).drop 1).foldl
        (fun acc i => if gd m.vals i < acc.2 then (i, gd m.vals i) else acc) (0, v0))
  | [axis, slice] =>
    if axis = 0 then
      if (m.r : Int) ≤ slice ∨ slice < 0 then .error .indexOOB
      else
        match m.vals[slice.toNat * m.c]? with
        | none => .error .panicOOB
        | some v0 =>
          .ok (((List.range m.c).drop 1).foldl
            (fun acc i => if gd m.vals (slice.toNat * m.c + i) < acc.2
              then (i, gd m.vals (slice.toNat * m.c + i)) else acc) (0, v0))
    else if axis = 1 then
      if (m.c : Int) ≤ slice ∨ slice < 0 then .error .indexOOB
      else
        match m.vals[slice.toNat]? with
        | none => .error .panicOOB
        | some v0 =>
          .ok (((List.range m.r).drop 1).foldl
            (fun acc i => if gd m.vals (i * m.c + slice.toNat) < acc.2
              then (i, gd m.vals (i * m.c + slice.toNat)) else acc) (0, v0))
    else .error .axisErr
  | _ => .error .argCount

/-- `Max(args...)`: identical to `Min` with the comparison reversed. -/
def Max (m : Mat) (args : List Int) : Except Fatal (Nat × ℚ) :=
  match args with
  | [] =>
    match m.vals[0]? with
    | none => .error .panicOOB
    | some v0 =>
      .ok (((List.range m.vals.length).drop 1).foldl
        (fun acc i => if acc.2 < gd m.vals i then (i, gd m.vals i) else acc) (0, v0))
  | [axis, slice] =>
    if axis = 0 then
      if (m.r : Int) ≤ slice ∨ slice < 0 then .error .indexOOB
      else
        match m.vals[slice.toNat * m.c]? with
        | none => .error .panicOOB
        | some v0 =>
          .ok (((List.range m.c).drop 1).foldl
            (fun acc i => if acc.2 < gd m.vals (slice.toNat * m.c + i)
              then (i, gd m.vals (slice.toNat * m.c + i)) else acc) (0, v0))
    else if axis = 1 then
      if (m.c : Int) ≤ slice ∨ slice < 0 then .error .indexOOB
      else
        match m.vals[slice.toNat]? with
        | none => .error .panicOOB
        | some v0 =>
          .ok (((List.range m.r).drop 1).foldl
            (fun acc i => if acc.2 < gd m.vals (i * m.c + slice.toNat)
              then (i, gd m.vals (i * m.c + slice.toNat)) else acc) (0, v0))
    else .error .axisErr
  | _ => .error .argCount

/-- The elements `vals[slice*m.c+i]` of row `slice`, scanned by the
axis-0 reduction loops. -/
def rowElems (m : Mat) (s : Nat) : List ℚ :=
  (List.range m.c).map fun i => gd m.vals (s * m.c + i)

/-- The elements `vals[i*m.c+slice]` of column `slice`, scanned by the
axis-1 reduction loops. -/
def colElems (m : Mat) (s : Nat) : List ℚ :=
  (List.range m.r).map fun i => gd m.vals (i * m.c + s)

/-- `Avg(args...)`: sum of the selected elements divided by the count of
the selected elements (`len(vals)`, `m.c` or `m.r` respectively). -/
def Avg (m : Mat) (args : List Int) : Except Fatal ℚ :=
  match args with
  | [] => .ok (sumList m.vals / (m.vals.length : ℚ))
  | [axis, slice] =>
    if axis = 0 then
      if (m.r : Int) ≤ slice ∨ slice < 0 then .error .indexOOB
      else .ok (sumList (rowElems m slice.toNat) / (m.c : ℚ))
    else if axis = 1 then
      if (m.c : Int) ≤ slice ∨ slice < 0 then .error .indexOOB
      else .ok (sumList (colElems m slice.toNat) / (m.r : ℚ))
    else .error .axisErr
  | _ => .error .argCount

/-- `Std(args...)` up to the final `math.Sqrt`: the value returned by the
code is `math.Sqrt` of the rational computed here (square root is
strictly monotone on non-negative arguments, so equality and inequality
of `Std` results correspond exactly to those of these radicands).  The
no-argument form divides the sum of squared deviations by `len(vals)`;
the axis forms deviate from the selection's mean (`Avg(axis, slice)`)
but, exactly as in the source, also divide by `len(m.vals)` rather than
by the number of selected elements. -/
def StdSq (m : Mat) (args : List Int) : Except Fatal ℚ :=
  match args with
  | [] =>
    let avg := sumList m.vals / (m.vals.length : ℚ)
    .ok (sumList (m.vals.map fun v => (avg - v) * (avg - v)) / (m.vals.length : ℚ))
  | [axis, slice] =>
    if axis = 0 then
      if (m.r : Int) ≤ slice ∨ slice < 0 then .error .indexOOB
      else
        let avg := sumList (rowElems m slice.toNat) / (m.c : ℚ)
        .ok (sumList ((rowElems m slice.toNat).map fun v => (avg - v) * (avg - v)) /
          (m.vals.length : ℚ))
    else if axis = 1 then
      if (m.c : Int) ≤ slice ∨ slice < 0 then .error .indexOOB
      else
        let avg := sumList (colElems m slice.toNat) / (m.r : ℚ)
        .ok (sumList ((colElems m slice.toNat).map fun v => (avg - v) * (avg - v)) /
          (m.vals.length : ℚ))
    else .error .axisErr
  | _ => .error .argCount

end Matf64

/-- Dynamic `float64 or *Matf64` argument of the Matf64 arithmetic
methods. -/
inductive Arg
  | scalar (v : ℚ)
  | matrix (n : Mat)

/-- Dynamic argument of the Matf32 arithmetic methods: the Go value in
the `interface` parameter can be a float64, a float32 or a *Matf32, and
the type switches distinguish the two float widths. -/
inductive Arg32
  | scalar64 (v : ℚ)
  | scalar32 (v : ℚ)
  | matrix (n : Mat)

namespace Matf64

/-- Shape check shared by the four arithmetic methods: rows first, then
columns, each reported as a shape mismatch. -/
def shapeCheck (m n : Mat) : Except Fatal Unit :=
  if n.r ≠ m.r then .error .shapeMismatch
  else if n.c ≠ m.c then .error .shapeMismatch
  else .ok ()

/-- `Add(v)`: scalar added to every buffer element, or `vecf64.Add`
elementwise after the shape check. -/
def Add (m : Mat) (v : Arg) : Except Fatal Mat :=
  match v with
  | .scalar s => .ok ⟨m.r, m.c, m.vals.map fun x => x + s⟩
  | .matrix n =>
    match shapeCheck m n with
    | .ok _ => .ok ⟨m.r, m.c, List.zipWith (fun x y => x + y) m.vals n.vals⟩
    | .error e => .error e

/-- `Sub(v)`: scalar subtracted from every buffer element, or
`vecf64.Sub` elementwise after the shape check. -/
def Sub (m : Mat) (v : Arg) : Except Fatal Mat :=
  match v with
  | .scalar s => .ok ⟨m.r, m.c, m.vals.map fun x => x - s⟩
  | .matrix n =>
    match shapeCheck m n with
    | .ok _ => .ok ⟨m.r, m.c, List.zipWith (fun x y => x - y) m.vals n.vals⟩
    | .error e => .error e

/-- `Mul(v)`: scalar multiplied into every buffer element, or
`vecf64.Mul` elementwise after the shape check. -/
def Mul (m : Mat) (v : Arg) : Except Fatal Mat :=
  match v with
  | .scalar s => .ok ⟨m.r, m.c, m.vals.map fun x => x * s⟩
  | .matrix n =>
    match shapeCheck m n with
    | .ok _ => .ok ⟨m.r, m.c, List.zipWith (fun x y => x * y) m.vals n.vals⟩
    | .error e => .error e

/-- `Div(v)`: every buffer element divided by the scalar, or `vecf64.Div`
elementwise after the shape check. -/
def Div (m : Mat) (v : Arg) : Except Fatal Mat :=
  match v with
  | .scalar s => .ok ⟨m.r, m.c, m.vals.map fun x => x / s⟩
  | .matrix n =>
    match shapeCheck m n with
    | .ok _ => .ok ⟨m.r, m.c, List.zipWith (fun x y => x / y) m.vals n.vals⟩
    | .error e => .error e

end Matf64

namespace Matf32

/-- `Matf32.Add(v)`: the type switch accepts `float64` (converted to
float32) and `*Matf32`; any other dynamic type, including a `float32`
value, falls to the default branch and reports a wrong-type error. -/
def Add (m : Mat) (v : Arg32) : Except Fatal Mat :=
  match v with
  | .scalar64 s => .ok ⟨m.r, m.c, m.vals.map fun x => x + s⟩
  | .matrix n =>
    match Matf64.shapeCheck m n with
    | .ok _ => .ok ⟨m.r, m.c, List.zipWith (fun x y => x + y) m.vals n.vals⟩
    | .error e => .error e
  | _ => .error .wrongType

/-- `Matf32.Sub(v)`: unlike every sibling arithmetic method, the type
switch here reads `case float32:`, so a `float64` scalar (the dynamic
type produced by the untyped constant in the method's own doc example
`m.Sub(2.0)`) falls to the default branch and reports a wrong-type
error; only an explicitly typed `float32` scalar is subtracted. -/
def Sub (m : Mat) (v : Arg32) : Except Fatal Mat :=
  match v with
  | .scalar32 s => .ok ⟨m.r, m.c, m.vals.map fun x => x - s⟩
  | .matrix n =>
    match Matf64.shapeCheck m n with
    | .ok _ => .ok ⟨m.r, m.c, List.zipWith (fun x y => x - y) m.vals n.vals⟩
    | .error e => .error e
  | _ => .error .wrongType

/-- `Matf32.Mul(v)`: accepts `float64` and `*Matf32` like `Add`. -/
def Mul (m : Mat) (v : Arg32) : Except Fatal Mat :=
  match v with
  | .scalar64 s => .ok ⟨m.r, m.c, m.vals.map fun x => x * s⟩
  | .matrix n =>
    match Matf64.shapeCheck m n with
    | .ok _ => .ok ⟨m.r, m.c, List.zipWith (fun x y => x * y) m.vals n.vals⟩
    | .error e => .error e
  | _ => .error .wrongType

/-- `Matf32.Div(v)`: accepts `float64` and `*Matf32` like `Add`. -/
def Div (m : Mat) (v : Arg32) : Except Fatal Mat :=
  match v with
  | .scalar64 s => .ok ⟨m.r, m.c, m.vals.map fun x => x / s⟩
  | .matrix n =>
    match Matf64.shapeCheck m n with
    | .ok _ => .ok ⟨m.r, m.c, List.zipWith (fun x y => x / y) m.vals n.vals⟩
    | .error e => .error e
  | _ => .error .wrongType

end Matf32

/-- Formalisation of the claim's description of standard deviation, for
comparison with the code: the population variance
`mean((x - mean(x))^2)` of the selected elements; the claimed Std is its
square root. -/
def popVarianceSpec (l : List ℚ) : ℚ :=
  sumList (l.map fun v =>
    (sumList l / (l.length : ℚ) - v) * (sumList l / (l.length : ℚ) - v)) /
    (l.length : ℚ)

/-- C5: the claim says every call form of `Std` returns the population
standard deviation of the selected elements.  On the 2x2 matrix
`[[1,3],[0,0]]`, `Std(0,0)` must be `sqrt(1) = 1` (row `[1,3]` has mean 2
and variance 1), but the code divides the squared-deviation sum of the
row by `len(m.vals) = 4`, returning `sqrt(1/2)`; square root is strictly
monotone on non-negative arguments, so the returned values differ. -/
theorem std_axis_divides_by_total_count :
    Matf64.StdSq ⟨2, 2, [1, 3, 0, 0]⟩ [0, 0] = .ok (1 / 2) ∧
    popVarianceSpec (Matf64.rowElems ⟨2, 2, [1, 3, 0, 0]⟩ 0) = 1 ∧
    (1 : ℚ) / 2 ≠ 1 ∧
    Real.sqrt (1 / 2) < Real.sqrt 1 := by
  refine ⟨?_, ?_, by norm_num, ?_⟩
  · simp [Matf64.StdSq, Matf64.rowElems, gd, sumList, List.range_succ]
    norm_num
  · simp [popVarianceSpec, Matf64.rowElems, gd, sumList, List.range_succ]
    norm_num
  · exact Real.sqrt_lt_sqrt (by norm_num) (by norm_num)

/-- C8: the claim says each arithmetic method in both width variants
applies a scalar argument to every element.  `Matf32.Sub`'s type switch
matches `float32` instead of `float64`, so the float64 scalar `2.0` (the
dynamic type produced by the untyped constant in its own doc example
`m.Sub(2.0)`) is rejected with a wrong-type fatal error, while the same
call on the float64 variant (and a float64 scalar on `Matf32.Add`)
performs the elementwise arithmetic. -/
theorem subf32_rejects_float64_scalar :
    Matf32.Sub ⟨2, 3, List.replicate 6 5⟩ (.scalar64 2) = .error .wrongType ∧
    Matf64.Sub ⟨2, 3, List.replicate 6 5⟩ (.scalar 2) =
      .ok ⟨2, 3, List.replicate 6 3⟩ ∧
    Matf32.Add ⟨2, 3, List.replicate 6 5⟩ (.scalar64 2) =
      .ok ⟨2, 3, List.replicate 6 7⟩ := by
  refine ⟨rfl, ?_, ?_⟩
  · simp [Matf64.Sub, List.map_replicate]
    norm_num
  · simp [Matf32.Add, List.map_replicate]
    norm_num

theorem readSeq_error_eq (vals : List ℚ) :
    ∀ idxs e, readSeq vals idxs = .error e → e = .panicOOB := by
  intro idxs
  induction idxs with
  | nil => intro e h; simp [readSeq] at h
  | cons i rest ih =>
    intro e h
    unfold readSeq at h
    by_cases hb : 0 ≤ i ∧ i.toNat < vals.length
    · rw [if_pos hb] at h
      cases hre : readSeq vals rest with
      | ok l => rw [hre] at h; simp at h
      | error e2 =>
        rw [hre] at h
        simp at h
        rw [← h]
        exact ih e2 hre
    · rw [if_neg hb] at h
      simp at h
      exact h.symm

theorem writeSeq_error_eq : ∀ (ps : List (Int × ℚ)) (vals : List ℚ) (e : Fatal),
    writeSeq vals ps = .error e → e = .panicOOB := by
  intro ps
  induction ps with
  | nil => intro vals e h; simp [writeSeq] at h
  | cons p rest ih =>
    intro vals e h
    unfold writeSeq at h
    by_cases hb : 0 ≤ p.1 ∧ p.1.toNat < vals.length
    · rw [if_pos hb] at h
      exact ih _ e h
    · rw [if_neg hb] at h
      simp at h
      exact h.symm

theorem exceptMap_eq_error {α β : Type} (f : α → β) (x : Except Fatal α) (e : Fatal) :
    x.map f = .error e ↔ x = .error e := by
  cases x <;> simp [Except.map]

/-- Formalisation of the spec's negative-index resolution rule: an index
`i < 0` resolves to `d + i`, where `d` is the dimension being indexed. -/
def resolveIdx (x : Int) (d : Nat) : Int := if 0 ≤ x then x else (d : Int) + x

/-- C9 counterexample: on the 2x2 matrix the sequence-form call
`SetCol(2, [5,6])` has a resolved column index 2 outside `[0, 2)`; the
claim requires an IndexError, but the sequence form performs no bounds
check — the first write lands inside the buffer at offset 2 and the
second write at offset 4 aborts with the unreported runtime panic. -/
theorem setcol_slice_unchecked_index :
    Matf64.SetCol ⟨2, 2, [1, 2, 3, 4]⟩ 2 (.slice [5, 6]) = .error .panicOOB ∧
    Fatal.panicOOB ≠ Fatal.indexOOB := ⟨rfl, by decide⟩

/-- C9 (amended): negative indices resolve to `rows+i` / `cols+j` in
every call form of `Row`, `Col`, `SetRow` and `SetCol`; `Row`, `Col` and
the scalar forms of `SetRow`/`SetCol` fail with an IndexError exactly
when the resolved index falls outside `[0, dimension)`; the sequence
forms of `SetRow`/`SetCol` never report an IndexError — they perform the
writes without any index bounds check. -/
theorem index_resolution_and_bounds_reporting (m : Mat) :
    (∀ x : Int, -(m.r : Int) ≤ x → x < 0 →
      Matf64.Row m x = Matf64.Row m (x + m.r)) ∧
    (∀ x : Int, -(m.c : Int) ≤ x → x < 0 →
      Matf64.Col m x = Matf64.Col m (x + m.c)) ∧
    (∀ x : Int, -(m.r : Int) ≤ x → x < 0 → ∀ v : ValArg,
      Matf64.SetRow m x v = Matf64.SetRow m (x + m.r) v) ∧
    (∀ x : Int, -(m.c : Int) ≤ x → x < 0 → ∀ v : ValArg,
      Matf64.SetCol m x v = Matf64.SetCol m (x + m.c) v) ∧
    (∀ x : Int, Matf64.Row m x = .error .indexOOB ↔
      (resolveIdx x m.r < 0 ∨ (m.r : Int) ≤ resolveIdx x m.r)) ∧
    (∀ x : Int, Matf64.Col m x = .error .indexOOB ↔
      (resolveIdx x m.c < 0 ∨ (m.c : Int) ≤ resolveIdx x m.c)) ∧
    (∀ (x : Int) (s : ℚ), Matf64.SetRow m x (.scalar s) = .error .indexOOB ↔
      (resolveIdx x m.r < 0 ∨ (m.r : Int) ≤ resolveIdx x m.r)) ∧
    (∀ (x : Int) (s : ℚ), Matf64.SetCol m x (.scalar s) = .error .indexOOB ↔
      (resolveIdx x m.c < 0 ∨ (m.c : Int) ≤ resolveIdx x m.c)) ∧
    (∀ (x : Int) (vs : List ℚ), Matf64.SetRow m x (.slice vs) ≠ .error .indexOOB) ∧
    (∀ (x : Int) (vs : List ℚ), Matf64.SetCol m x (.slice vs) ≠ .error .indexOOB) := by
  refine ⟨?_, ?_, ?_, ?_, ?_, ?_, ?_, ?_, ?_, ?_⟩
  · intro x h1 h2
    rw [show x + (m.r : Int) = (m.r : Int) + x from by ring]
    have hc1 : ¬ ((m.r : Int) ≤ x ∨ x < -(m.r : Int)) := by omega
    have hc2 : ¬ ((m.r : Int) ≤ (m.r : Int) + x ∨ (m.r : Int) + x < -(m.r : Int)) := by
      omega
    have hp1 : ¬ (0 : Int) ≤ x := by omega
    have hp2 : (0 : Int) ≤ (m.r : Int) + x := by omega
    unfold Matf64.Row
    rw [if_neg hc1, if_neg hc2, if_neg hp1, if_pos hp2]
  · intro x h1 h2
    rw [show x + (m.c : Int) = (m.c : Int) + x from by ring]
    have hc1 : ¬ ((m.c : Int) ≤ x ∨ x < -(m.c : Int)) := by omega
    have hc2 : ¬ ((m.c : Int) ≤ (m.c : Int) + x ∨ (m.c : Int) + x < -(m.c : Int)) := by
      omega
    have hp1 : ¬ (0 : Int) ≤ x := by omega
    have hp2 : (0 : Int) ≤ (m.c : Int) + x := by omega
    unfold Matf64.Col
    rw [if_neg hc1, if_neg hc2, if_neg hp1, if_pos hp2]
  · intro x h1 h2 v
    rw [show x + (m.r : Int) = (m.r : Int) + x from by ring]
    have hc1 : ¬ ((m.r : Int) ≤ x ∨ x < -(m.r : Int)) := by omega
    have hc2 : ¬ ((m.r : Int) ≤ (m.r : Int) + x ∨ (m.r : Int) + x < -(m.r : Int)) := by
      omega
    have hp1 : ¬ (0 : Int) ≤ x := by omega
    have hp2 : (0 : Int) ≤ (m.r : Int) + x := by omega
    cases v with
    | scalar s =>
      unfold Matf64.SetRow
      dsimp only
      rw [if_neg hc1, if_neg hc2, if_neg hp1, if_pos hp2]
    | slice vs =>
      unfold Matf64.SetRow
      dsimp only
      by_cases hl : vs.length ≠ m.c
      · rw [if_pos hl, if_pos hl]
      · rw [if_neg hl, if_neg hl, if_neg hp1, if_pos hp2]
  · intro x h1 h2 v
    rw [show x + (m.c : Int) = (m.c : Int) + x from by ring]
    have hc1 : ¬ ((m.c : Int) ≤ x ∨ x < -(m.c : Int)) := by omega
    have hc2 : ¬ ((m.c : Int) ≤ (m.c : Int) + x ∨ (m.c : Int) + x < -(m.c : Int)) := by
      omega
    have hp1 : ¬ (0 : Int) ≤ x := by omega
    have hp2 : (0 : Int) ≤ (m.c : Int) + x := by omega
    cases v with
    | scalar s =>
      unfold Matf64.SetCol
      dsimp only
      rw [if_neg hc1, if_neg hc2, if_neg hp1, if_pos hp2]
    | slice vs =>
      unfold Matf64.SetCol
      dsimp only
      by_cases hl : vs.length ≠ m.r
      · rw [if_pos hl, if_pos hl]
      · rw [if_neg hl, if_neg hl, if_neg hp1, if_pos hp2]
  · intro x
    unfold Matf64.Row resolveIdx
    by_cases hc : (m.r : Int) ≤ x ∨ x < -(m.r : Int)
    · rw [if_pos hc]
      constructor
      · intro _
        split_ifs <;> omega
      · intro _
        rfl
    · rw [if_neg hc]
      constructor
      · intro habs
        by_cases h0 : (0 : Int) ≤ x
        · rw [if_pos h0] at habs
          exact absurd (readSeq_error_eq _ _ _ ((exceptMap_eq_error _ _ _).mp habs)).symm
            (by decide)
        · rw [if_neg h0] at habs
          exact absurd (readSeq_error_eq _ _ _ ((exceptMap_eq_error _ _ _).mp habs)).symm
            (by decide)
      · intro hres
        exfalso
        split_ifs at hres <;> omega
  · intro x
    unfold Matf64.Col resolveIdx
    by_cases hc : (m.c : Int) ≤ x ∨ x < -(m.c : Int)
    · rw [if_pos hc]
      constructor
      · intro _
        split_ifs <;> omega
      · intro _
        rfl
    · rw [if_neg hc]
      constructor
      · intro habs
        by_cases h0 : (0 : Int) ≤ x
        · rw [if_pos h0] at habs
          exact absurd (readSeq_error_eq _ _ _ ((exceptMap_eq_error _ _ _).mp habs)).symm
            (by decide)
        · rw [if_neg h0] at habs
          exact absurd (readSeq_error_eq _ _ _ ((exceptMap_eq_error _ _ _).mp habs)).symm
            (by decide)
      · intro hres
        exfalso
        split_ifs at hres <;> omega
  · intro x s
    unfold Matf64.SetRow resolveIdx
    dsimp only
    by_cases hc : (m.r : Int) ≤ x ∨ x < -(m.r : Int)
    · rw [if_pos hc]
      constructor
      · intro _
        split_ifs <;> omega
      · intro _
        rfl
    · rw [if_neg hc]
      constructor
      · intro habs
        by_cases h0 : (0 : Int) ≤ x
        · rw [if_pos h0] at habs
          exact absurd (writeSeq_error_eq _ _ _ ((exceptMap_eq_error _ _ _).mp habs)).symm
            (by decide)
        · rw [if_neg h0] at habs
          exact absurd (writeSeq_error_eq _ _ _ ((exceptMap_eq_error _ _ _).mp habs)).symm
            (by decide)
      · intro hres
        exfalso
        split_ifs at hres <;> omega
  · intro x s
    unfold Matf64.SetCol resolveIdx
    dsimp only
    by_cases hc : (m.c : Int) ≤ x ∨ x < -(m.c : Int)
    · rw [if_pos hc]
      constructor
      · intro _
        split_ifs <;> omega
      · intro _
        rfl
    · rw [if_neg hc]
      constructor
      · intro habs
        by_cases h0 : (0 : Int) ≤ x
        · rw [if_pos h0] at habs
          exact absurd (writeSeq_error_eq _ _ _ ((exceptMap_eq_error _ _ _).mp habs)).symm
            (by decide)
        · rw [if_neg h0] at habs
          exact absurd (writeSeq_error_eq _ _ _ ((exceptMap_eq_error _ _ _).mp habs)).symm
            (by decide)
      · intro hres
        exfalso
        split_ifs at hres <;> omega
  · intro x vs habs
    unfold Matf64.SetRow at habs
    dsimp only at habs
    by_cases hl : vs.length ≠ m.c
    · rw [if_pos hl] at habs
      simp at habs
    · rw [if_neg hl] at habs
      by_cases h0 : (0 : Int) ≤ x
      · rw [if_pos h0] at habs
        exact absurd (writeSeq_error_eq _ _ _ ((exceptMap_eq_error _ _ _).mp habs)).symm
          (by decide)
      · rw [if_neg h0] at habs
        exact absurd (writeSeq_error_eq _ _ _ ((exceptMap_eq_error _ _ _).mp habs)).symm
          (by decide)
  · intro x vs habs
    unfold Matf64.SetCol at habs
    dsimp only at habs
    by_cases hl : vs.length ≠ m.r
    · rw [if_pos hl] at habs
      simp at habs
    · rw [if_neg hl] at habs
      by_cases h0 : (0 : Int) ≤ x
      · rw [if_pos h0] at habs
        exact absurd (writeSeq_error_eq _ _ _ ((exceptMap_eq_error _ _ _).mp habs)).symm
          (by decide)
      · rw [if_neg h0] at habs
        exact absurd (writeSeq_error_eq _ _ _ ((exceptMap_eq_error _ _ _).mp habs)).symm
          (by decide)

theorem index_resolution_and_bounds_reporting_witness :
    Matf64.Row ⟨2, 2, [1, 2, 3, 4]⟩ (-1) =
      Matf64.Row ⟨2, 2, [1, 2, 3, 4]⟩ (-1 + (2 : Int)) :=
  (index_resolution_and_bounds_reporting ⟨2, 2, [1, 2, 3, 4]⟩).1 (-1)
    (by decide) (by decide)

/-- C10: `Min()` and `Max()` with no arguments read `vals[0]` before
scanning: on any matrix satisfying the length invariant with
`rows*cols > 0` every access is in bounds and a result is produced, while
on the empty matrix built by the zero-argument constructor the initial
access is out of range and aborts with the runtime panic, which is not a
reported IndexError. -/
theorem min_max_initial_read (m : Mat) (hm : m.wf) (hpos : 0 < m.r * m.c) :
    (∃ p, Matf64.Min m [] = .ok p) ∧ (∃ p, Matf64.Max m [] = .ok p) ∧
    Matf64.Newf64 [] = .ok ⟨0, 0, []⟩ ∧
    Matf64.Min ⟨0, 0, []⟩ [] = .error .panicOOB ∧
    Matf64.Max ⟨0, 0, []⟩ [] = .error .panicOOB ∧
    Fatal.panicOOB ≠ Fatal.indexOOB := by
  have hlen : 0 < m.vals.length := by rw [hm]; exact hpos
  obtain ⟨v0, hv⟩ : ∃ v0, m.vals[0]? = some v0 := by
    cases hv : m.vals[0]? with
    | none =>
      rw [List.getElem?_eq_none_iff] at hv
      omega
    | some v0 => exact ⟨v0, rfl⟩
  refine ⟨?_, ?_, rfl, rfl, rfl, by decide⟩
  · refine ⟨((List.range m.vals.length).drop 1).foldl
      (fun acc i => if gd m.vals i < acc.2 then (i, gd m.vals i) else acc) (0, v0), ?_⟩
    unfold Matf64.Min
    rw [hv]
  · refine ⟨((List.range m.vals.length).drop 1).foldl
      (fun acc i => if acc.2 < gd m.vals i then (i, gd m.vals i) else acc) (0, v0), ?_⟩
    unfold Matf64.Max
    rw [hv]

theorem min_max_initial_read_witness :
    (∃ p, Matf64.Min ⟨1, 2, [3, 4]⟩ [] = .ok p) ∧
    (∃ p, Matf64.Max ⟨1, 2, [3, 4]⟩ [] = .ok p) ∧
    Matf64.Newf64 [] = .ok ⟨0, 0, []⟩ ∧
    Matf64.Min ⟨0, 0, []⟩ [] = .error .panicOOB ∧
    Matf64.Max ⟨0, 0, []⟩ [] = .error .panicOOB ∧
    Fatal.panicOOB ≠ Fatal.indexOOB :=
  min_max_initial_read ⟨1, 2, [3, 4]⟩ (by decide) (by decide)
